import Mathlib

/-!
Verification development for the plasma-evm Root Chain Manager (RCM) and its
storage index accessors.

Shallow embedding conventions:
* `common.Hash` values and addresses are modelled as `Nat`; the zero hash
  `common.Hash{}` is `0`.
* `uint64` counters (nonces, block numbers, indices) are modelled as `Nat`:
  none of the modelled code paths can overflow them.
* `big.Int` gas prices are modelled as `Int`.  Go's `big.Int.Div` is Euclidean
  division (non-negative remainder), which coincides with Lean's `Int` division
  for the positive divisors used here.
* The key-value database is modelled as an association list from structured
  keys to structured values.  The external RLP codec is modelled by the typed
  value constructors: storing a value of one kind under a key and decoding it
  as another kind is a decode failure, which the accessors treat as "missing"
  exactly as the source logs-and-returns-empty on `rlp.DecodeBytes` errors.
-/

/-- A transaction receipt.  `status` is the execution status
(`types.ReceiptStatusFailed = 0` denotes failure); `rlpBytes` models the
output of the external RLP encoder `receipt.GetRlp()`. -/
structure Receipt where
  status : Nat
  rlpBytes : List Nat
deriving DecidableEq

/-- A transaction, reduced to its hash (the only part the lookup accessors
inspect). -/
structure Tx where
  hash : Nat
deriving DecidableEq

/-- A block, reduced to the parts `WriteTxLookupEntries` inspects:
`block.Hash()`, `block.NumberU64()` and `block.Transactions()`. -/
structure Block where
  hash : Nat
  number : Nat
  txs : List Tx
deriving DecidableEq

/-- `TxLookupEntry` from the source: positional metadata stored per
transaction hash. -/
structure TxLookupEntry where
  blockHash : Nat
  blockIndex : Nat
  index : Nat
deriving DecidableEq

/-- `InvalidExitReceiptsLookupEntry` from the source: metadata for the invalid
exit receipts of one block. -/
structure InvalidExitReceiptsLookupEntry where
  blockHash : Nat
  blockIndex : Nat
  indices : List Nat
deriving DecidableEq

/-- Database keys: `txLookupKey(hash)`,
`invalidExitReceiptsLookupKey(fork, num, hash)` and (for the external receipts
store consumed by `ReadInvalidExitReceipts`) the block receipts key. -/
inductive DBKey where
  | txLookup (hash : Nat)
  | invalidExitReceiptsLookup (fork : Nat) (num : Nat) (hash : Nat)
  | blockReceipts (num : Nat) (hash : Nat)
deriving DecidableEq

/-- Database values, tagged by the record type their bytes RLP-decode to. -/
inductive DBVal where
  | txEntry (e : TxLookupEntry)
  | invalidExitEntry (e : InvalidExitReceiptsLookupEntry)
  | receiptsVal (rs : List Receipt)
deriving DecidableEq

/-- The key-value database: most recent write first. -/
abbrev DB := List (DBKey × DBVal)

/-- `db.Get`: first (most recent) binding of the key wins. -/
def dbGet : DB → DBKey → Option DBVal
  | [], _ => none
  | kv :: rest, k => if kv.1 = k then some kv.2 else dbGet rest k

/-- `db.Put`: prepend, so the new binding shadows any older one. -/
def dbPut (db : DB) (k : DBKey) (v : DBVal) : DB := (k, v) :: db

/-- `db.Delete`: remove every binding of the key. -/
def dbDelete : DB → DBKey → DB
  | [], _ => []
  | kv :: rest, k => if kv.1 = k then dbDelete rest k else kv :: dbDelete rest k

/-- `ReadTxLookupEntry`: missing data or a decode failure yields the empty
tuple `(common.Hash{}, 0, 0)`. -/
def ReadTxLookupEntry (db : DB) (hash : Nat) : Nat × Nat × Nat :=
  match dbGet db (DBKey.txLookup hash) with
  | none => (0, 0, 0)
  | some (DBVal.txEntry e) => (e.blockHash, e.blockIndex, e.index)
  | some _ => (0, 0, 0)

/-- The loop body of `WriteTxLookupEntries`: store one entry per transaction,
with `i` the running position of the transaction inside the block. -/
def writeTxEntriesFrom (db : DB) (blockHash blockNumber : Nat) :
    List Tx → Nat → DB
  | [], _ => db
  | tx :: rest, i =>
      writeTxEntriesFrom
        (dbPut db (DBKey.txLookup tx.hash)
          (DBVal.txEntry ⟨blockHash, blockNumber, i⟩))
        blockHash blockNumber rest (i + 1)

/-- `WriteTxLookupEntries`: one positional entry per transaction of the
block. -/
def WriteTxLookupEntries (db : DB) (block : Block) : DB :=
  writeTxEntriesFrom db block.hash block.number block.txs 0

/-- `DeleteTxLookupEntry`. -/
def DeleteTxLookupEntry (db : DB) (hash : Nat) : DB :=
  dbDelete db (DBKey.txLookup hash)

/-- `ReadInvalidExitReceiptsLookupEntry`: missing data or a decode failure
yields `(common.Hash{}, 0, nil)`. -/
def ReadInvalidExitReceiptsLookupEntry (db : DB) (hash num fork : Nat) :
    Nat × Nat × List Nat :=
  match dbGet db (DBKey.invalidExitReceiptsLookup fork num hash) with
  | none => (0, 0, [])
  | some (DBVal.invalidExitEntry e) => (e.blockHash, e.blockIndex, e.indices)
  | some _ => (0, 0, [])

/-- `WriteInvalidExitReceiptsLookupEntry`. -/
def WriteInvalidExitReceiptsLookupEntry (db : DB) (hash num fork : Nat)
    (indices : List Nat) : DB :=
  dbPut db (DBKey.invalidExitReceiptsLookup fork num hash)
    (DBVal.invalidExitEntry ⟨hash, num, indices⟩)

/-- `DeleteInvalidExitReceiptsLookupEntry`. -/
def DeleteInvalidExitReceiptsLookupEntry (db : DB) (hash num fork : Nat) : DB :=
  dbDelete db (DBKey.invalidExitReceiptsLookup fork num hash)

/-- Modelled from the spec: `ReadReceipts` (receipt persistence, declared
outside this file's source as an external collaborator of the accessors)
returns the stored receipts list for `(blockHash, blockNumber)`, or the empty
list when the record is absent or fails to decode. -/
def ReadReceipts (db : DB) (hash num : Nat) : List Receipt :=
  match dbGet db (DBKey.blockReceipts num hash) with
  | some (DBVal.receiptsVal rs) => rs
  | _ => []

/-- `ReadInvalidExitReceipts`.  The Go function returns a
`map[uint64]*types.Receipt` (possibly `nil`); the map is modelled as an
association list in insertion order, with `nil` modelled as `[]`.  The Go
expression `receipts[index]` panics on an out-of-range index; it is modelled
with `getD` and a dummy receipt, and the theorems about this function restrict
indices to the stored range. -/
def ReadInvalidExitReceipts (db : DB) (hash num fork : Nat) :
    List (Nat × Receipt) :=
  match ReadInvalidExitReceiptsLookupEntry db hash num fork with
  | (blockHash, blockNumber, indices) =>
    if blockHash = 0 then []
    else
      let receipts := ReadReceipts db blockHash blockNumber
      if receipts.length = 0 then []
      else indices.map (fun index => (index, receipts.getD index ⟨0, []⟩))

/-- The `adjust` closure of `runSubmitter`:
`sufficient` replaces the gas price by `(p / 4) * 3`,
`insufficient` by `(p / 2) * 3` (Euclidean division, as `big.Int.Div`). -/
def adjust (sufficient : Bool) (gasPrice : Int) : Int :=
  if sufficient then gasPrice / 4 * 3 else gasPrice / 2 * 3

/-- A finite sequence of gas price adjustments, applied left to right
(`true` = sufficient, `false` = insufficient). -/
def adjustList (gasPrice : Int) (steps : List Bool) : Int :=
  steps.foldl (fun p b => adjust b p) gasPrice

/-- Operator State (`rcm.state`): the fields `runSubmitter` and
`handleBlockFinalzied` consume.  `nonce` is read by `getNonce` and advanced by
`incNonce`; `gasPrice` is mutated only by `adjust`. -/
structure OperatorState where
  nonce : Nat
  gasPrice : Int
  currentFork : Nat
  costNRB : Nat
deriving DecidableEq

/-- The Submitter state while one mined block is pending on the parent chain:
the shared Operator State, the local `nonce` variable captured at the last
submission, the identifier of the block being submitted, and whether the
pending ticker is still running. -/
structure PendingState where
  op : OperatorState
  localNonce : Nat
  block : Nat
  tickerActive : Bool
deriving DecidableEq

/-- The parent-chain transaction built by the `submit` closure: the local
`nonce` variable, the current fork, the block being submitted, `costNRB` as
value and the current gas price.  (The ABI payload of state/tx/receipt roots
is summarized by the `block` identifier.) -/
structure SubmitTx where
  nonce : Nat
  fork : Nat
  block : Nat
  value : Nat
  gasPrice : Int
deriving DecidableEq

/-- The submission transaction of the `submit` closure, as a function of the
state at the moment of the call. -/
def submitTxOf (s : PendingState) : SubmitTx :=
  { nonce := s.localNonce
    fork := s.op.currentFork
    block := s.block
    value := s.op.costNRB
    gasPrice := s.op.gasPrice }

/-- The two stimuli of the pending loop's `select`: a ticker tick, or a
BlockSubmitted event (whose `receiptFetched` records whether the follow-up
`TransactionReceipt` RPC succeeded). -/
inductive PendingEvent where
  | tick
  | blockSubmitted (receiptFetched : Bool)
deriving DecidableEq

/-- Loop control after one iteration of the pending loop: does the enclosing
`for` continue or exit? -/
inductive LoopCtl where
  | stay
  | exit
deriving DecidableEq

/-- Result of one iteration of the pending loop: the updated state, the
submission dispatched during the iteration (if any), and where control
goes. -/
structure PendingStepResult where
  state : PendingState
  submitted : Option SubmitTx
  ctl : LoopCtl
deriving DecidableEq

/-- One iteration of the pending loop of `runSubmitter`.

* On a tick: if the local nonce still equals the operator nonce, the gas
  price is raised by `adjust false`; otherwise the local nonce is refreshed
  from the operator state.  In both cases the block is then submitted again
  with the current local nonce and gas price (`txHash = submit(funcName,
  block)` sits after the whole `if`/`else`).
* On BlockSubmitted: the ticker is stopped, `incNonce` advances the operator
  nonce, the receipt is fetched; when the fetch fails the `break` fires before
  `adjust(true)`, otherwise `adjust(true)` lowers the gas price.  The final
  `break` in Go exits only the innermost `select`, so the `for` loop is
  re-entered: control is `LoopCtl.stay` on every path. -/
def pendingStep (s : PendingState) : PendingEvent → PendingStepResult
  | PendingEvent.tick =>
      let s1 :=
        if s.localNonce = s.op.nonce then
          { s with op := { s.op with gasPrice := adjust false s.op.gasPrice } }
        else
          { s with localNonce := s.op.nonce }
      { state := s1, submitted := some (submitTxOf s1), ctl := LoopCtl.stay }
  | PendingEvent.blockSubmitted receiptFetched =>
      let op1 := { s.op with nonce := s.op.nonce + 1 }
      if receiptFetched then
        { state := { s with
                      op := { op1 with gasPrice := adjust true op1.gasPrice }
                      tickerActive := false }
          submitted := none
          ctl := LoopCtl.stay }
      else
        { state := { s with op := op1, tickerActive := false }
          submitted := none
          ctl := LoopCtl.stay }

/-- One recorded invalid exit (`invalidExit` in the source): the failed
receipt of a request block together with its position and Merkle proof. -/
structure InvalidExit where
  forkNumber : Nat
  blockNumber : Nat
  receipt : Receipt
  index : Nat
  proof : List Nat
deriving DecidableEq

/-- Static configuration consumed by `handleBlockFinalzied`:
`rcm.config.RootChainContract`, `params.SubmitBlockGasLimit` and
`params.SubmitBlockGasPrice`. -/
structure Config where
  rootChainContract : Nat
  submitBlockGasLimit : Nat
  submitBlockGasPrice : Nat
deriving DecidableEq

/-- The `challengeExit` transaction built per invalid exit: operator nonce,
contract address, zero value, the fixed gas parameters, and the packed
`challengeExit(fork, blockNumber, index, receiptRLP, proofs)` payload. -/
structure ChallengeTx where
  nonce : Nat
  toAddr : Nat
  value : Nat
  gasLimit : Nat
  gasPrice : Nat
  fork : Nat
  blockNumber : Nat
  index : Nat
  receiptRlp : List Nat
  proofBytes : List Nat
deriving DecidableEq

/-- The 32 bytes of a `common.Hash`, big-endian (`hash.Bytes()`). -/
def hashBytes (h : Nat) : List Nat :=
  (List.range 32).map (fun i => h / 256 ^ (31 - i) % 256)

/-- The inner `j` loop of `handleBlockFinalzied`: the proof hashes of one
invalid exit, concatenated byte-wise in order. -/
def concatProofs : List Nat → List Nat
  | [] => []
  | h :: rest => hashBytes h ++ concatProofs rest

/-- The `for i` loop of `handleBlockFinalzied`: one signed `challengeExit`
transaction per recorded invalid exit.  Each iteration draws
`Nonce := rcm.state.getNonce()`, which reads — and does not advance — the
operator nonce. -/
def challengeLoop (cfg : Config) (op : OperatorState) (fork blockNumber : Nat) :
    List InvalidExit → List ChallengeTx
  | [] => []
  | ex :: rest =>
      { nonce := op.nonce,
        toAddr := cfg.rootChainContract,
        value := 0,
        gasLimit := cfg.submitBlockGasLimit,
        gasPrice := cfg.submitBlockGasPrice,
        fork := fork,
        blockNumber := blockNumber,
        index := ex.index,
        receiptRlp := ex.receipt.rlpBytes,
        proofBytes := concatProofs ex.proof } ::
        challengeLoop cfg op fork blockNumber rest

/-- `handleBlockFinalzied`: when the parent-chain block record for
`(fork, blockNumber)` has `isRequest` true, send one `challengeExit` per
entry of the invalid-exit store at `(fork, blockNumber)`; the store itself is
not modified on any path.  Returns the sent transactions and the store after
handling. -/
def handleBlockFinalzied (cfg : Config) (isRequest : Bool)
    (op : OperatorState) (store : Nat → Nat → List InvalidExit)
    (fork blockNumber : Nat) :
    List ChallengeTx × (Nat → Nat → List InvalidExit) :=
  if isRequest then
    (challengeLoop cfg op fork blockNumber (store fork blockNumber), store)
  else
    ([], store)

/-- The stimuli that can touch the Operator State during one run: the
Submitter's pending-loop events and a BlockFinalized event (with the
`isRequest` answer of the parent-chain `GetBlock` call). -/
inductive RcmEvent where
  | tick
  | blockSubmitted (receiptFetched : Bool)
  | blockFinalized (isRequest : Bool) (fork : Nat) (blockNumber : Nat)
deriving DecidableEq

/-- Is the event a BlockSubmitted event? -/
def isBlockSubmitted : RcmEvent → Bool
  | RcmEvent.blockSubmitted _ => true
  | _ => false

/-- The state shared by the Submitter and the BlockFinalized handler: the
pending-loop state (which embeds the Operator State) and the invalid-exit
store `fork → blockNumber → invalidExits`. -/
structure RcmState where
  pending : PendingState
  invalidExits : Nat → Nat → List InvalidExit

/-- One serialized step of the RCM: pending-loop events go through
`pendingStep`, BlockFinalized events through `handleBlockFinalzied` (which
reads, and never advances, the operator nonce). -/
def rcmStep (cfg : Config) (s : RcmState) : RcmEvent → RcmState
  | RcmEvent.tick =>
      { s with pending := (pendingStep s.pending PendingEvent.tick).state }
  | RcmEvent.blockSubmitted r =>
      { s with
          pending := (pendingStep s.pending (PendingEvent.blockSubmitted r)).state }
  | RcmEvent.blockFinalized isReq fork blockNumber =>
      { s with
          invalidExits :=
            (handleBlockFinalzied cfg isReq s.pending.op s.invalidExits
              fork blockNumber).2 }

/-- A whole run: the events applied in order. -/
def rcmRun (cfg : Config) (s : RcmState) (evs : List RcmEvent) : RcmState :=
  evs.foldl (rcmStep cfg) s

/-- The request-block descriptor returned by `rootchainContract.ORBs`:
the inclusive range of request ids of one request block. -/
structure ORBrecord where
  requestStart : Nat
  requestEnd : Nat
deriving DecidableEq

/-- The external request object returned by `rootchainContract.EROs`. -/
structure EROrecord where
  isTransfer : Bool
  isExit : Bool
  requestor : Nat
  toField : Nat
  value : Nat
  trieKey : Nat
  trieValue : List Nat
deriving DecidableEq

/-- The ABI payload of a materialized request transaction: empty for a
transfer, otherwise the packed
`applyRequestInChildChain(isExit, requestId, requestor, trieKey, trieValue)`
call (the constructor models the injective ABI encoding). -/
inductive TxInput where
  | empty
  | applyRequestInChildChain (isExit : Bool) (requestId : Nat)
      (requestor : Nat) (trieKey : Nat) (trieValue : List Nat)
deriving DecidableEq

/-- A materialized request transaction, as built by
`types.NewTransaction(0, to, request.Value, RequestTxGasLimit,
RequestTxGasPrice, input)`; the two fixed gas parameters are configuration
constants and omitted. -/
structure RequestTx where
  nonce : Nat
  toAddr : Nat
  value : Nat
  input : TxInput
deriving DecidableEq

/-- The `EpochPrepared` event fields consumed by `handleEpochPrepared`. -/
structure EpochPreparedEvent where
  epochNumber : Nat
  startBlockNumber : Nat
  endBlockNumber : Nat
  isRequest : Bool
  userActivated : Bool
  epochIsEmpty : Bool
  forkNumber : Nat
  rebase : Bool
deriving DecidableEq

/-- The read-only parent-chain contract calls consumed by
`handleEpochPrepared`: `ORBs`, `EROs`, `RequestableContracts`, and the
`FirstRequestBlockId` field of `GetEpoch(fork, epochNumber)`. -/
structure RootchainOracle where
  orbs : Nat → ORBrecord
  eros : Nat → EROrecord
  requestableContracts : Nat → Nat
  firstRequestBlockId : Nat → Nat → Nat

/-- Materialization of one ERO into a request transaction: a transfer targets
the requestor with empty input; any other request targets the requestable
contract registered for `request.To` and carries the packed
`applyRequestInChildChain` call. -/
def materializeRequestTx (o : RootchainOracle) (requestId : Nat) : RequestTx :=
  let request := o.eros requestId
  if request.isTransfer then
    { nonce := 0, toAddr := request.requestor, value := request.value,
      input := TxInput.empty }
  else
    { nonce := 0, toAddr := o.requestableContracts request.toField,
      value := request.value,
      input := TxInput.applyRequestInChildChain request.isExit requestId
        request.requestor request.trieKey request.trieValue }

/-- The inner `requestId` loop of `handleEpochPrepared`: the body of one
request block, one transaction per `requestId` from `requestStart` to
`requestEnd` inclusive, in ascending order. -/
def orbBody (o : RootchainOracle) (requestBlockId : Nat) : List RequestTx :=
  let orb := o.orbs requestBlockId
  (List.range (orb.requestEnd + 1 - orb.requestStart)).map
    (fun k => materializeRequestTx o (orb.requestStart + k))

/-- The `numMinedORBs` loop of `handleEpochPrepared`: enqueue
`bodies[numMinedORBs]` into the pool for `numMinedORBs = 0, 1, …,
numORBs − 1`, in order (each enqueue is followed by waiting for the matching
mined request block). -/
def enqueueLoop (bodies : List (List RequestTx)) (numORBs : Nat) :
    List (List RequestTx) :=
  (List.range numORBs).map (fun numMinedORBs => bodies.getD numMinedORBs [])

/-- `handleEpochPrepared`, restricted to its transaction-pool effect: the
sequence of request batches enqueued, in order.  An empty epoch is skipped;
a non-request epoch enqueues nothing.  `numORBs` is
`endBlockNumber − startBlockNumber + 1` (the `blockNumber` loop runs from
`startBlockNumber` to `endBlockNumber` inclusive while `requestBlockId`
starts at `GetEpoch(currentFork, epochNumber).FirstRequestBlockId` and
advances in lockstep).  The `big.Int` subtraction cannot underflow in the
modelled domain of epochs with `startBlockNumber ≤ endBlockNumber`. -/
def handleEpochPrepared (o : RootchainOracle) (currentFork : Nat)
    (e : EpochPreparedEvent) : List (List RequestTx) :=
  if e.epochIsEmpty then []
  else if e.isRequest then
    let numORBs := e.endBlockNumber + 1 - e.startBlockNumber
    let requestBlockId := o.firstRequestBlockId currentFork e.epochNumber
    let bodies :=
      (List.range numORBs).map (fun k => orbBody o (requestBlockId + k))
    enqueueLoop bodies numORBs
  else []

/-- The spec-described ORB concatenation (stated from the specification's
words, to be compared with the handler's output): the batches of the ORBs
with ids `firstId, firstId + 1, …, firstId + numORBs − 1` in ascending id
order, each batch materializing its EROs in ascending `requestId` over the
inclusive range `[requestStart, requestEnd]`, concatenated. -/
def specORBConcatenation (o : RootchainOracle) (firstId numORBs : Nat) :
    List RequestTx :=
  ((List.range numORBs).map (fun i =>
    let orb := o.orbs (firstId + i)
    (List.range (orb.requestEnd + 1 - orb.requestStart)).map
      (fun k => materializeRequestTx o (orb.requestStart + k)))).flatten

theorem adjust_nonneg (b : Bool) (p : Int) (h : 0 ≤ p) : 0 ≤ adjust b p := by
  unfold adjust
  split
  · exact mul_nonneg (Int.ediv_nonneg h (by norm_num)) (by norm_num)
  · exact mul_nonneg (Int.ediv_nonneg h (by norm_num)) (by norm_num)

theorem adjustList_nonneg (steps : List Bool) :
    ∀ p : Int, 0 ≤ p → 0 ≤ adjustList p steps := by
  induction steps with
  | nil => intro p h; exact h
  | cons b rest ih =>
      intro p h
      exact ih (adjust b p) (adjust_nonneg b p h)

/-- C6 (counterexample): a strictly positive gas price of 1 becomes 0 after a
single sufficient adjustment (`3 * (1 / 4) = 0`), so the resulting gas price
is not strictly positive. -/
theorem c6_gas_price_positive_counterexample :
    (0 : Int) < 1 ∧ ¬ (0 < adjustList 1 [true]) := by decide

/-- C6 (amended): for every non-negative initial gas price and every finite
sequence of sufficient/insufficient adjustments, the resulting gas price
remains non-negative (it can reach zero exactly, e.g. from 1). -/
theorem c6_gas_price_nonneg (p : Int) (h : 0 ≤ p) (steps : List Bool) :
    0 ≤ adjustList p steps :=
  adjustList_nonneg steps p h

theorem c6_gas_price_nonneg_witness :
    0 ≤ (4 : Int) ∧ 0 ≤ adjustList 4 [true, false] :=
  ⟨by decide, c6_gas_price_nonneg 4 (by decide) [true, false]⟩

/-- C7: for every (non-negative, as in the program) gas price `p`, the
sufficient adjustment computes exactly `3 * (p / 4)` and the insufficient
adjustment exactly `3 * (p / 2)`, where the division is the floor (equally:
truncating, the operands being non-negative) integer division of `p`,
performed before the multiplication — as witnessed by the floor bounds. -/
theorem c7_adjustment_formulas (p : Int) (h : 0 ≤ p) :
    adjust true p = 3 * (p / 4) ∧
      adjust false p = 3 * (p / 2) ∧
      4 * (p / 4) ≤ p ∧ p < 4 * (p / 4) + 4 ∧
      2 * (p / 2) ≤ p ∧ p < 2 * (p / 2) + 2 := by
  refine ⟨by unfold adjust; ring_nf; rfl, by unfold adjust; ring_nf; rfl,
    ?_, ?_, ?_, ?_⟩ <;> omega

theorem c7_adjustment_formulas_witness :
    0 ≤ (10 : Int) ∧
      (adjust true 10 = 3 * ((10 : Int) / 4) ∧
        adjust false 10 = 3 * ((10 : Int) / 2) ∧
        4 * ((10 : Int) / 4) ≤ 10 ∧ (10 : Int) < 4 * ((10 : Int) / 4) + 4 ∧
        2 * ((10 : Int) / 2) ≤ 10 ∧ (10 : Int) < 2 * ((10 : Int) / 2) + 2) :=
  ⟨by decide, c7_adjustment_formulas 10 (by decide)⟩

/-- C1 (counterexample): a pending state whose operator nonce (1) has
advanced past the local nonce (0).  On the tick, the claim predicts no
resubmission; the code accepts the new nonce and still resubmits the block
(with the accepted nonce and the unchanged gas price). -/
theorem c1_tick_no_resubmission_counterexample :
    (⟨⟨1, 100, 0, 10⟩, 0, 42, true⟩ : PendingState).localNonce ≠
        (⟨⟨1, 100, 0, 10⟩, 0, 42, true⟩ : PendingState).op.nonce ∧
      (pendingStep ⟨⟨1, 100, 0, 10⟩, 0, 42, true⟩ PendingEvent.tick).submitted =
        some ⟨1, 0, 42, 10, 100⟩ := by decide

/-- C1 (amended): on each periodic tick the block is resubmitted in both
cases; when the operator nonce has not advanced the gas price is first raised
by the insufficient adjustment, and when it has advanced the observed nonce
is accepted into the local nonce and the gas price is left unchanged — the
resubmission then carries the current local nonce and gas price, for the same
block. -/
theorem c1_tick_always_resubmits (s : PendingState) :
    (pendingStep s PendingEvent.tick).submitted =
        some (submitTxOf (pendingStep s PendingEvent.tick).state) ∧
      (pendingStep s PendingEvent.tick).state.block = s.block ∧
      (s.localNonce = s.op.nonce →
        (pendingStep s PendingEvent.tick).state.op.gasPrice =
            adjust false s.op.gasPrice ∧
          (pendingStep s PendingEvent.tick).state.localNonce = s.localNonce) ∧
      (s.localNonce ≠ s.op.nonce →
        (pendingStep s PendingEvent.tick).state.localNonce = s.op.nonce ∧
          (pendingStep s PendingEvent.tick).state.op.gasPrice =
            s.op.gasPrice) := by
  by_cases h : s.localNonce = s.op.nonce <;>
    simp [pendingStep, h]

theorem c1_tick_always_resubmits_witness :
    (pendingStep ⟨⟨1, 8, 0, 10⟩, 0, 42, true⟩ PendingEvent.tick).state.localNonce
        = 1 ∧
      (pendingStep ⟨⟨1, 8, 0, 10⟩, 0, 42, true⟩
            PendingEvent.tick).state.op.gasPrice = 8 :=
  (c1_tick_always_resubmits ⟨⟨1, 8, 0, 10⟩, 0, 42, true⟩).2.2.2 (by decide)

/-- C2: at the failing input (a pending state with operator nonce 5 and gas
price 100, receiving a BlockSubmitted event whose receipt fetch succeeds) the
code stops the ticker, increments the operator nonce to 6, applies the
sufficient adjustment (100 ↦ 75) and performs no resubmission — but the Go
`break` exits only the innermost `select`, so control stays in the enclosing
pending-interval loop (`LoopCtl.stay`) instead of exiting it as the claim
states. -/
theorem c2_block_submitted_stays_in_pending_loop :
    pendingStep ⟨⟨5, 100, 0, 10⟩, 5, 42, true⟩
        (PendingEvent.blockSubmitted true) =
      ⟨⟨⟨6, 75, 0, 10⟩, 5, 42, false⟩, none, LoopCtl.stay⟩ := by decide

theorem challengeLoop_nonce (cfg : Config) (op : OperatorState)
    (fork blockNumber : Nat) :
    ∀ (l : List InvalidExit) (tx : ChallengeTx),
      tx ∈ challengeLoop cfg op fork blockNumber l → tx.nonce = op.nonce
  | [], tx, h => by simp [challengeLoop] at h
  | ex :: rest, tx, h => by
      rw [challengeLoop] at h
      rcases List.mem_cons.mp h with h1 | h1
      · subst h1; rfl
      · exact challengeLoop_nonce cfg op fork blockNumber rest tx h1

/-- C3 (counterexample): a BlockFinalized event on a request block with two
recorded InvalidExits.  Both `challengeExit` transactions draw
`rcm.state.getNonce()` without any increment in between, so their nonces are
equal, refuting pairwise distinctness. -/
theorem c3_nonces_not_distinct_counterexample :
    (handleBlockFinalzied ⟨77, 500, 9⟩ true ⟨5, 100, 0, 10⟩
          (fun _ _ => [⟨0, 0, ⟨0, [1]⟩, 0, []⟩, ⟨0, 0, ⟨0, [2]⟩, 1, []⟩])
          0 0).1.length = 2 ∧
      ¬ List.Pairwise (fun a b : ChallengeTx => a.nonce ≠ b.nonce)
        (handleBlockFinalzied ⟨77, 500, 9⟩ true ⟨5, 100, 0, 10⟩
          (fun _ _ => [⟨0, 0, ⟨0, [1]⟩, 0, []⟩, ⟨0, 0, ⟨0, [2]⟩, 1, []⟩])
          0 0).1 := by decide

/-- C3 (amended): every `challengeExit` transaction built while handling one
BlockFinalized event on a request block carries the operator nonce read from
the Operator State at construction time; since the state nonce is never
incremented during the handling, all the challenges of one event carry the
same nonce — in particular the nonces of distinct challenges are never
distinct. -/
theorem c3_challenge_nonces_all_equal (cfg : Config) (op : OperatorState)
    (store : Nat → Nat → List InvalidExit) (fork blockNumber : Nat)
    (tx : ChallengeTx)
    (h : tx ∈ (handleBlockFinalzied cfg true op store fork blockNumber).1) :
    tx.nonce = op.nonce := by
  rw [handleBlockFinalzied] at h
  simp only [if_true] at h
  exact challengeLoop_nonce cfg op fork blockNumber (store fork blockNumber) tx h

theorem c3_challenge_nonces_all_equal_witness :
    (⟨5, 77, 0, 500, 9, 0, 0, 3, [1], []⟩ : ChallengeTx).nonce = 5 :=
  c3_challenge_nonces_all_equal ⟨77, 500, 9⟩ ⟨5, 100, 0, 10⟩
    (fun _ _ => [⟨0, 0, ⟨0, [1]⟩, 3, []⟩]) 0 0
    ⟨5, 77, 0, 500, 9, 0, 0, 3, [1], []⟩ (by decide)

theorem concatProofs_eq_flatten (l : List Nat) :
    concatProofs l = (l.map hashBytes).flatten := by
  induction l with
  | nil => rfl
  | cons h t ih => rw [concatProofs, List.map_cons, List.flatten_cons, ih]

theorem challengeLoop_eq_map (cfg : Config) (op : OperatorState)
    (fork blockNumber : Nat) (l : List InvalidExit) :
    challengeLoop cfg op fork blockNumber l =
      l.map (fun ex =>
        { nonce := op.nonce,
          toAddr := cfg.rootChainContract,
          value := 0,
          gasLimit := cfg.submitBlockGasLimit,
          gasPrice := cfg.submitBlockGasPrice,
          fork := fork,
          blockNumber := blockNumber,
          index := ex.index,
          receiptRlp := ex.receipt.rlpBytes,
          proofBytes := (ex.proof.map hashBytes).flatten }) := by
  induction l with
  | nil => rfl
  | cons ex rest ih =>
      rw [challengeLoop, List.map_cons, ih, concatProofs_eq_flatten]

/-- C4 (counterexample): a BlockFinalized event on a request block whose
store entry holds one InvalidExit.  The handler emits the challenge, but the
InvalidExitStore entry for `(fork, blockNumber) = (2, 3)` is left in place —
it is not drained and is non-empty after handling, refuting the removal part
of the claim. -/
theorem c4_store_not_drained_counterexample :
    ((handleBlockFinalzied ⟨77, 500, 9⟩ true ⟨5, 100, 0, 10⟩
          (fun f b => if f = 2 ∧ b = 3 then [⟨2, 3, ⟨0, [1]⟩, 0, []⟩] else [])
          2 3).1.length = 1) ∧
      ((handleBlockFinalzied ⟨77, 500, 9⟩ true ⟨5, 100, 0, 10⟩
          (fun f b => if f = 2 ∧ b = 3 then [⟨2, 3, ⟨0, [1]⟩, 0, []⟩] else [])
          2 3).2) 2 3 ≠ [] := by decide

/-- C4 (amended): for every BlockFinalized event whose parent-chain block
record has `isRequest` true, the handler emits exactly one `challengeExit`
transaction per InvalidExit in the store entry for `(fork, blockNumber)` —
carrying that exit's index, receipt RLP and concatenated proof bytes — and no
others; the InvalidExitStore is left unchanged (the entry is not drained). -/
theorem c4_challenges_exact_store_unchanged (cfg : Config)
    (op : OperatorState) (store : Nat → Nat → List InvalidExit)
    (fork blockNumber : Nat) :
    (handleBlockFinalzied cfg true op store fork blockNumber).1 =
        (store fork blockNumber).map (fun ex =>
          { nonce := op.nonce,
            toAddr := cfg.rootChainContract,
            value := 0,
            gasLimit := cfg.submitBlockGasLimit,
            gasPrice := cfg.submitBlockGasPrice,
            fork := fork,
            blockNumber := blockNumber,
            index := ex.index,
            receiptRlp := ex.receipt.rlpBytes,
            proofBytes := (ex.proof.map hashBytes).flatten }) ∧
      (handleBlockFinalzied cfg true op store fork blockNumber).2 = store := by
  rw [handleBlockFinalzied]
  exact ⟨challengeLoop_eq_map cfg op fork blockNumber (store fork blockNumber),
    rfl⟩

theorem rcmStep_nonce (cfg : Config) (s : RcmState) (e : RcmEvent) :
    (rcmStep cfg s e).pending.op.nonce =
      s.pending.op.nonce + (if isBlockSubmitted e then 1 else 0) := by
  cases e with
  | tick =>
      by_cases h : s.pending.localNonce = s.pending.op.nonce <;>
        simp [rcmStep, pendingStep, isBlockSubmitted, h]
  | blockSubmitted r =>
      cases r <;> simp [rcmStep, pendingStep, isBlockSubmitted]
  | blockFinalized isReq fork blockNumber =>
      simp [rcmStep, isBlockSubmitted]

theorem rcmRun_nonce (cfg : Config) :
    ∀ (evs : List RcmEvent) (s : RcmState),
      (rcmRun cfg s evs).pending.op.nonce =
        s.pending.op.nonce + evs.countP isBlockSubmitted
  | [], s => by simp [rcmRun]
  | e :: evs, s => by
      have h1 := rcmRun_nonce cfg evs (rcmStep cfg s e)
      have h2 := rcmStep_nonce cfg s e
      show (rcmRun cfg (rcmStep cfg s e) evs).pending.op.nonce = _
      rw [h1, h2, List.countP_cons]
      cases h : isBlockSubmitted e <;> simp [h] <;> omega

/-- C5: along every serialized run of the Submitter and the BlockFinalized
handler, the Operator State nonce is non-decreasing and the final nonce is
the initial nonce plus the number of BlockSubmitted events received: the
nonce is incremented exactly once per BlockSubmitted event, and never
advances on a tick (resubmission) or on a BlockFinalized handling. -/
theorem c5_nonce_monotonic_counted (cfg : Config) (s : RcmState)
    (evs : List RcmEvent) :
    (rcmRun cfg s evs).pending.op.nonce =
        s.pending.op.nonce + evs.countP isBlockSubmitted ∧
      s.pending.op.nonce ≤ (rcmRun cfg s evs).pending.op.nonce := by
  have h := rcmRun_nonce cfg evs s
  exact ⟨h, by omega⟩

theorem range_map_getD {α : Type} (d : α) :
    ∀ l : List α, (List.range l.length).map (fun i => l.getD i d) = l := by
  intro l
  induction l with
  | nil => rfl
  | cons a t ih =>
      rw [List.length_cons, List.range_succ_eq_map, List.map_cons,
        List.map_map]
      refine congrArg₂ List.cons rfl ?_
      refine Eq.trans (List.map_congr_left ?_) ih
      intro i _
      rfl

theorem enqueueLoop_of_length (bodies : List (List RequestTx)) (n : Nat)
    (h : bodies.length = n) : enqueueLoop bodies n = bodies := by
  subst h
  exact range_map_getD [] bodies

/-- C8: for every non-empty request epoch with
`startBlockNumber ≤ endBlockNumber`, the handler builds
`numORBs = endBlockNumber − startBlockNumber + 1` batches, and the sequence
of request transactions enqueued into the pool equals the concatenation of
the ORB batches in ascending `requestBlockId` starting at the epoch's
`FirstRequestBlockId`, each batch materialized in ascending `requestId` over
its `[requestStart, requestEnd]`. -/
theorem c8_orb_ordering (o : RootchainOracle) (currentFork : Nat)
    (e : EpochPreparedEvent) (hreq : e.isRequest = true)
    (hne : e.epochIsEmpty = false)
    (hse : e.startBlockNumber ≤ e.endBlockNumber) :
    (handleEpochPrepared o currentFork e).length =
        e.endBlockNumber - e.startBlockNumber + 1 ∧
      (handleEpochPrepared o currentFork e).flatten =
        specORBConcatenation o
          (o.firstRequestBlockId currentFork e.epochNumber)
          (e.endBlockNumber - e.startBlockNumber + 1) := by
  have hN : e.endBlockNumber + 1 - e.startBlockNumber =
      e.endBlockNumber - e.startBlockNumber + 1 := by omega
  rw [handleEpochPrepared, hne, hreq]
  simp only [Bool.false_eq_true, if_false, if_true]
  rw [enqueueLoop_of_length _ _ (by rw [List.length_map, List.length_range]),
    hN]
  exact ⟨by rw [List.length_map, List.length_range],
    by rw [specORBConcatenation]; rfl⟩

/-- The oracle of the C8 witness: `ORBs(7) = [10, 11]`, `ORBs(8) = [12, 12]`,
every ERO a transfer to address `100 + requestId` with value `requestId`,
epoch 3 starting at request block 7. -/
def oracleW : RootchainOracle where
  orbs := fun id => if id = 7 then ⟨10, 11⟩ else ⟨12, 12⟩
  eros := fun rid => ⟨true, false, 100 + rid, 0, rid, 0, []⟩
  requestableContracts := fun a => a
  firstRequestBlockId := fun _ _ => 7

theorem c8_orb_ordering_witness :
    (handleEpochPrepared oracleW 0 ⟨3, 200, 201, true, false, false, 0, false⟩).length
        = 2 ∧
      (handleEpochPrepared oracleW 0
            ⟨3, 200, 201, true, false, false, 0, false⟩).flatten
        = specORBConcatenation oracleW 7 2 :=
  c8_orb_ordering oracleW 0 ⟨3, 200, 201, true, false, false, 0, false⟩
    rfl rfl (by decide)

theorem dbGet_dbPut_self (db : DB) (k : DBKey) (v : DBVal) :
    dbGet (dbPut db k v) k = some v := by
  simp [dbGet, dbPut]

theorem dbGet_dbPut_ne (db : DB) (k k' : DBKey) (v : DBVal) (h : k ≠ k') :
    dbGet (dbPut db k v) k' = dbGet db k' := by
  simp [dbGet, dbPut, h]

theorem dbGet_dbDelete_self (db : DB) (k : DBKey) :
    dbGet (dbDelete db k) k = none := by
  induction db with
  | nil => rfl
  | cons kv rest ih =>
      rw [dbDelete]
      by_cases h : kv.1 = k
      · rw [if_pos h]; exact ih
      · rw [if_neg h, dbGet, if_neg h]; exact ih

theorem writeTxEntriesFrom_get_of_not_mem (bh bn : Nat) :
    ∀ (l : List Tx) (j : Nat) (db : DB) (k : DBKey),
      (∀ tx ∈ l, DBKey.txLookup tx.hash ≠ k) →
      dbGet (writeTxEntriesFrom db bh bn l j) k = dbGet db k
  | [], _, _, _, _ => rfl
  | tx :: rest, j, db, k, h => by
      have h1 : DBKey.txLookup tx.hash ≠ k := h tx (List.mem_cons_self tx rest)
      have h2 : ∀ t ∈ rest, DBKey.txLookup t.hash ≠ k :=
        fun t ht => h t (List.mem_cons_of_mem tx ht)
      rw [writeTxEntriesFrom,
        writeTxEntriesFrom_get_of_not_mem bh bn rest (j + 1) _ k h2,
        dbGet_dbPut_ne _ _ _ _ h1]

theorem writeTxEntriesFrom_get (bh bn : Nat) :
    ∀ (l : List Tx) (j : Nat) (db : DB) (i : Nat) (h : i < l.length),
      (l.map Tx.hash).Nodup →
      dbGet (writeTxEntriesFrom db bh bn l j)
          (DBKey.txLookup (l.get ⟨i, h⟩).hash)
        = some (DBVal.txEntry ⟨bh, bn, j + i⟩)
  | [], _, _, i, h, _ => absurd h (by simp)
  | tx :: rest, j, db, i, h, hnd => by
      have hnotmem : tx.hash ∉ rest.map Tx.hash := by
        rw [List.map_cons, List.nodup_cons] at hnd
        exact hnd.1
      have hndrest : (rest.map Tx.hash).Nodup := by
        rw [List.map_cons, List.nodup_cons] at hnd
        exact hnd.2
      cases i with
      | zero =>
          have hne : ∀ t ∈ rest, DBKey.txLookup t.hash ≠
              DBKey.txLookup tx.hash := by
            intro t ht hkey
            refine hnotmem ?_
            have heq : t.hash = tx.hash := by
              injection hkey with heq
            exact heq ▸ List.mem_map_of_mem Tx.hash ht
          show dbGet (writeTxEntriesFrom db bh bn (tx :: rest) j)
              (DBKey.txLookup tx.hash)
            = some (DBVal.txEntry ⟨bh, bn, j + 0⟩)
          rw [writeTxEntriesFrom,
            writeTxEntriesFrom_get_of_not_mem bh bn rest (j + 1) _ _ hne,
            dbGet_dbPut_self]
          rfl
      | succ i' =>
          have h' : i' < rest.length := by
            simpa using h
          have := writeTxEntriesFrom_get bh bn rest (j + 1)
            (dbPut db (DBKey.txLookup tx.hash)
              (DBVal.txEntry ⟨bh, bn, j⟩)) i' h' hndrest
          rw [writeTxEntriesFrom]
          show dbGet _ (DBKey.txLookup (rest.get ⟨i', h'⟩).hash) = _
          rw [this]
          refine congrArg (fun n => some (DBVal.txEntry ⟨bh, bn, n⟩)) ?_
          omega

/-- C9: for every block whose transactions have pairwise-distinct hashes,
after `WriteTxLookupEntries` the lookup on the hash of the transaction at
position `i` returns `(block hash, block number, i)`; and after
`DeleteTxLookupEntry(hash)`, `ReadTxLookupEntry(hash)` returns the empty
tuple `(0, 0, 0)`. -/
theorem c9_txlookup_roundtrip (db : DB) (b : Block) (i : Nat)
    (h : i < b.txs.length) (hnd : (b.txs.map Tx.hash).Nodup) :
    ReadTxLookupEntry (WriteTxLookupEntries db b) (b.txs.get ⟨i, h⟩).hash
        = (b.hash, b.number, i) ∧
      ∀ (db2 : DB) (hash : Nat),
        ReadTxLookupEntry (DeleteTxLookupEntry db2 hash) hash = (0, 0, 0) := by
  constructor
  · rw [ReadTxLookupEntry, WriteTxLookupEntries,
      writeTxEntriesFrom_get b.hash b.number b.txs 0 db i h hnd]
    simp
  · intro db2 hash
    rw [ReadTxLookupEntry, DeleteTxLookupEntry, dbGet_dbDelete_self]

theorem c9_txlookup_roundtrip_witness :
    ReadTxLookupEntry (WriteTxLookupEntries [] ⟨7, 5, [⟨100⟩, ⟨200⟩]⟩) 200
        = (7, 5, 1) ∧
      ReadTxLookupEntry
          (DeleteTxLookupEntry [(DBKey.txLookup 9, DBVal.txEntry ⟨1, 2, 3⟩)] 9)
          9
        = (0, 0, 0) :=
  ⟨(c9_txlookup_roundtrip [] ⟨7, 5, [⟨100⟩, ⟨200⟩]⟩ 1 (by decide)
      (by decide)).1,
    (c9_txlookup_roundtrip [] ⟨7, 5, [⟨100⟩, ⟨200⟩]⟩ 1 (by decide)
      (by decide)).2 [(DBKey.txLookup 9, DBVal.txEntry ⟨1, 2, 3⟩)] 9⟩

/-- C10 (counterexample): writing an entry whose block hash is the zero hash
(`common.Hash{}`, modelled as 0) for a block whose stored receipts list is
`[⟨1, [7]⟩]` and `indices = [0]`.  `ReadInvalidExitReceipts` treats the zero
block hash in the decoded entry as "missing" and returns the nil map, whose
key set is empty and does not equal `indices`. -/
theorem c10_zero_hash_counterexample :
    (ReadInvalidExitReceipts
        (WriteInvalidExitReceiptsLookupEntry
          [(DBKey.blockReceipts 3 0, DBVal.receiptsVal [⟨1, [7]⟩])]
          0 3 2 [0])
        0 3 2).map Prod.fst ≠ [0] := by decide

/-- C10 (amended): for every `(fork, blockNumber, blockHash, indices)`
written via `WriteInvalidExitReceiptsLookupEntry` with a nonzero block hash
and indices within the stored receipts list (as presupposed by the claim's
`receipts[i]`), `ReadInvalidExitReceipts` returns the mapping
`i ↦ receipts[i]` over exactly the written indices: its key sequence equals
`indices` and its value at each `i` is `receipts[i]`. -/
theorem c10_invalid_exit_roundtrip (db : DB) (hash num fork : Nat)
    (indices : List Nat) (h0 : hash ≠ 0)
    (hin : ∀ i ∈ indices, i < (ReadReceipts db hash num).length) :
    ReadInvalidExitReceipts
        (WriteInvalidExitReceiptsLookupEntry db hash num fork indices)
        hash num fork
      = indices.map (fun i => (i, (ReadReceipts db hash num).getD i ⟨0, []⟩)) ∧
    (ReadInvalidExitReceipts
        (WriteInvalidExitReceiptsLookupEntry db hash num fork indices)
        hash num fork).map Prod.fst = indices := by
  have hl : ReadInvalidExitReceiptsLookupEntry
      (WriteInvalidExitReceiptsLookupEntry db hash num fork indices)
      hash num fork = (hash, num, indices) := by
    rw [ReadInvalidExitReceiptsLookupEntry,
      WriteInvalidExitReceiptsLookupEntry, dbGet_dbPut_self]
  have hr : ReadReceipts
      (WriteInvalidExitReceiptsLookupEntry db hash num fork indices) hash num
      = ReadReceipts db hash num := by
    rw [ReadReceipts, ReadReceipts, WriteInvalidExitReceiptsLookupEntry,
      dbGet_dbPut_ne]
    exact fun hc => DBKey.noConfusion hc
  have hmain : ReadInvalidExitReceipts
      (WriteInvalidExitReceiptsLookupEntry db hash num fork indices)
      hash num fork
      = indices.map (fun i => (i, (ReadReceipts db hash num).getD i ⟨0, []⟩)) := by
    rw [ReadInvalidExitReceipts, hl]
    simp only [hr, if_neg h0]
    by_cases hlen : (ReadReceipts db hash num).length = 0
    · have hemp : indices = [] := by
        cases indices with
        | nil => rfl
        | cons a t =>
            have := hin a (List.mem_cons_self a t)
            omega
      subst hemp
      simp [hlen]
    · rw [if_neg hlen]
  refine ⟨hmain, ?_⟩
  rw [hmain, List.map_map]
  exact Eq.trans (List.map_congr_left (fun i _ => rfl)) (List.map_id indices)

theorem c10_invalid_exit_roundtrip_witness :
    ReadInvalidExitReceipts
        (WriteInvalidExitReceiptsLookupEntry
          [(DBKey.blockReceipts 3 5, DBVal.receiptsVal [⟨1, [7]⟩, ⟨0, [8]⟩])]
          5 3 2 [1])
        5 3 2
      = [(1, ⟨0, [8]⟩)] :=
  (c10_invalid_exit_roundtrip
    [(DBKey.blockReceipts 3 5, DBVal.receiptsVal [⟨1, [7]⟩, ⟨0, [8]⟩])]
    5 3 2 [1] (by decide) (by decide)).1
